import Mathlib

/-!
Verification of the moment-navigator recommendation core.

The development shallowly embeds the TypeScript sources:
  - src/lib/recommendation.ts   (parseDeadline, computePressure, computeEnergyFit,
                                 computeDurationFit, generateExplanation, recommendTask)
  - src/components/clarity/TimeConfirmationDialog.tsx  (the time-window dialog state)
  - src/services/api.ts         (the useClarity energy-change effect)

JavaScript strings are modelled as `List Char`, JavaScript numbers as `ℚ`
(the claims under study are about exact formula structure, not rounding),
and the ambient `Date` library as an abstract `Clock` structure.
-/

/-- JavaScript string literal as a character list. -/
def lit (s : String) : List Char := s.toList

/-- Does `hay` start with `needle`?  (Character-by-character prefix test.) -/
def strStartsWith (needle hay : List Char) : Bool :=
  match needle, hay with
  | [], _ => true
  | _ :: _, [] => false
  | c :: cs, h :: hs => c == h && strStartsWith cs hs

/-- JavaScript `hay.includes(needle)`: substring containment. -/
def strContains : List Char → List Char → Bool
  | [], needle => strStartsWith needle []
  | c :: hs, needle => strStartsWith needle (c :: hs) || strContains hs needle

/-- JavaScript `toLowerCase()` (ASCII case folding suffices for the repo's inputs). -/
def toLowerL (s : List Char) : List Char := s.map Char.toLower

theorem strStartsWith_append_self (m y : List Char) :
    strStartsWith m (m ++ y) = true := by
  induction m with
  | nil => rfl
  | cons c cs ih => simp [strStartsWith, ih]

theorem strContains_of_startsWith {hay needle : List Char}
    (h : strStartsWith needle hay = true) : strContains hay needle = true := by
  cases hay <;> simp [strContains, h]

theorem strContains_cons_of {hay needle : List Char} (c : Char)
    (h : strContains hay needle = true) : strContains (c :: hay) needle = true := by
  simp [strContains, h]

theorem strContains_append_right {b needle : List Char} (a : List Char)
    (h : strContains b needle = true) : strContains (a ++ b) needle = true := by
  induction a with
  | nil => simpa using h
  | cons c cs ih => exact strContains_cons_of c ih

/-- A copy of `needle` sitting at the front of the tail witnesses containment. -/
theorem strContains_pref (m z : List Char) : strContains (m ++ z) m = true :=
  strContains_of_startsWith (strStartsWith_append_self m z)

/-- Containment gives an explicit decomposition of the haystack. -/
theorem exists_decomp_of_strContains {hay needle : List Char}
    (h : strContains hay needle = true) :
    ∃ x y, hay = x ++ needle ++ y := by
  induction hay with
  | nil =>
    cases needle with
    | nil => exact ⟨[], [], rfl⟩
    | cons c cs => simp [strContains, strStartsWith] at h
  | cons c hs ih =>
    rw [strContains, Bool.or_eq_true] at h
    rcases h with h | h
    · -- needle is a prefix of c :: hs
      have : ∃ y, c :: hs = needle ++ y := by
        clear ih
        induction needle generalizing c hs with
        | nil => exact ⟨c :: hs, rfl⟩
        | cons n ns ihn =>
          rw [strStartsWith, Bool.and_eq_true, beq_iff_eq] at h
          cases hs with
          | nil =>
            cases ns with
            | nil => exact ⟨[], by simp [h.1]⟩
            | cons m ms => simp [strStartsWith] at h
          | cons h2 hs2 =>
            obtain ⟨y, hy⟩ := ihn h2 hs2 h.2
            exact ⟨y, by simp [h.1, hy]⟩
      obtain ⟨y, hy⟩ := this
      exact ⟨[], y, by simpa using hy⟩
    · obtain ⟨x, y, hxy⟩ := ih h
      exact ⟨c :: x, y, by simp [hxy]⟩

theorem strContains_of_decomp {hay needle x y : List Char}
    (h : hay = x ++ needle ++ y) : strContains hay needle = true := by
  subst h
  rw [List.append_assoc]
  exact strContains_append_right x (strContains_pref needle y)

/-- Every character of a contained substring occurs in the haystack. -/
theorem mem_hay_of_strContains {hay needle : List Char} {c : Char}
    (h : strContains hay needle = true) (hc : c ∈ needle) : c ∈ hay := by
  obtain ⟨x, y, hxy⟩ := exists_decomp_of_strContains h
  subst hxy
  simp [hc]

/-- If some character of `needle` is missing from `hay`, containment fails. -/
theorem strContains_eq_false_of_missing {hay needle : List Char} {c : Char}
    (hc : c ∈ needle) (hmiss : c ∉ hay) : strContains hay needle = false := by
  cases h : strContains hay needle with
  | false => rfl
  | true => exact absurd (mem_hay_of_strContains h hc) hmiss

theorem strStartsWith_append_clean {needle a b : List Char} {c : Char}
    (hc : c ∉ needle) :
    strStartsWith needle (a ++ c :: b) = strStartsWith needle a := by
  induction needle generalizing a with
  | nil => rfl
  | cons n ns ih =>
    cases a with
    | nil =>
      have : (n == c) = false := by
        simp only [beq_eq_false_iff_ne]
        intro h
        exact hc (h ▸ List.mem_cons_self n ns)
      simp [strStartsWith, this]
    | cons x xs =>
      have hns : c ∉ ns := fun h => hc (List.mem_cons_of_mem n h)
      simp [strStartsWith, ih hns]

/-- Splitting containment at a separator character that cannot occur in the needle. -/
theorem strContains_split {needle : List Char} (a b : List Char) {c : Char}
    (hc : c ∉ needle) (hne : needle ≠ []) :
    strContains (a ++ c :: b) needle = (strContains a needle || strContains b needle) := by
  induction a with
  | nil =>
    have hpre : strStartsWith needle (c :: b) = false := by
      cases needle with
      | nil => exact absurd rfl hne
      | cons n ns =>
        have : (n == c) = false := by
          simp only [beq_eq_false_iff_ne]
          intro h
          exact hc (h ▸ List.mem_cons_self n ns)
        simp [strStartsWith, this]
    have h0 : strStartsWith needle [] = false := by
      cases needle with
      | nil => exact absurd rfl hne
      | cons n ns => rfl
    rw [List.nil_append]
    simp only [strContains, hpre, h0, Bool.false_or]
  | cons x xs ih =>
    have hsw : strStartsWith needle (x :: (xs ++ c :: b))
        = strStartsWith needle (x :: xs) := strStartsWith_append_clean hc (a := x :: xs)
    calc strContains ((x :: xs) ++ c :: b) needle
        = (strStartsWith needle (x :: (xs ++ c :: b))
            || strContains (xs ++ c :: b) needle) := by
            rw [List.cons_append, strContains]
      _ = (strStartsWith needle (x :: xs)
            || (strContains xs needle || strContains b needle)) := by rw [hsw, ih]
      _ = (strContains (x :: xs) needle || strContains b needle) := by
            rw [strContains]
            cases strStartsWith needle (x :: xs) <;>
              cases strContains xs needle <;> cases strContains b needle <;> rfl

theorem strContains_glue_false {needle a b : List Char} {c : Char}
    (hc : c ∉ needle) (hne : needle ≠ [])
    (ha : strContains a needle = false) (hb : strContains b needle = false) :
    strContains (a ++ c :: b) needle = false := by
  rw [strContains_split a b hc hne, ha, hb]
  rfl

/-! ### JavaScript number helpers -/

/-- JavaScript `Math.round` (round half toward positive infinity). -/
def jsRound (q : ℚ) : ℤ := ⌊q + 1/2⌋

/-- Digit-production loop for `natToStr`; the fuel (any bound on the digit
count) makes the recursion structural. -/
def natToStrAux : ℕ → ℕ → List Char
  | 0, _ => []
  | fuel + 1, n =>
    if n < 10 then [Char.ofNat (48 + n)]
    else natToStrAux fuel (n / 10) ++ [Char.ofNat (48 + n % 10)]

/-- JavaScript `String(n)` for a natural number (decimal digits). -/
def natToStr (n : ℕ) : List Char := natToStrAux (n + 1) n

/-- JavaScript `n.toString().padStart(2, '0')`. -/
def padTwo (n : ℕ) : List Char :=
  let s := natToStr n
  if s.length = 1 then '0' :: s else s

theorem digitChar_mem_digits {d : ℕ} (hd : d < 10) :
    Char.ofNat (48 + d) ∈ lit "0123456789" := by
  interval_cases d <;> decide

theorem natToStrAux_subset_digits (fuel n : ℕ) :
    ∀ c ∈ natToStrAux fuel n, c ∈ lit "0123456789" := by
  induction fuel generalizing n with
  | zero => intro c hc; exact absurd hc (List.not_mem_nil c)
  | succ fuel ih =>
    intro c hc
    rw [natToStrAux] at hc
    by_cases h : n < 10
    · rw [if_pos h] at hc
      simp only [List.mem_singleton] at hc
      exact hc ▸ digitChar_mem_digits h
    · rw [if_neg h] at hc
      rcases List.mem_append.mp hc with hc | hc
      · exact ih (n / 10) c hc
      · simp only [List.mem_singleton] at hc
        exact hc ▸ digitChar_mem_digits (Nat.mod_lt n (by omega))

theorem natToStr_subset_digits (n : ℕ) :
    ∀ c ∈ natToStr n, c ∈ lit "0123456789" :=
  natToStrAux_subset_digits (n + 1) n

theorem padTwo_subset_digits (n : ℕ) :
    ∀ c ∈ padTwo n, c ∈ lit "0123456789" := by
  intro c hc
  rw [padTwo] at hc
  by_cases h : (natToStr n).length = 1
  · simp only [h, if_pos] at hc
    rcases List.mem_cons.mp hc with hc | hc
    · subst hc; decide
    · exact natToStr_subset_digits n c hc
  · simp only [h, if_neg, if_false] at hc
    exact natToStr_subset_digits n c hc

/-! ### Data model (src/types/clarity.ts) -/

namespace Clarity

inductive EnergyLevel
  | low
  | medium
  | high
deriving DecidableEq

inductive TaskType
  | nonNegotiable
  | growth
  | general
deriving DecidableEq

inductive WindowSource
  | user
  | calendarSuggested
  | systemDefault
deriving DecidableEq

inductive ReasonType
  | corePressure
  | growthOpportunity
deriving DecidableEq

structure Task where
  id : List Char
  title : List Char
  estimatedMinutes : ℚ
  deadline : List Char
  goalId : Option (List Char)
  completed : Bool
  taskType : TaskType
  inProgress : Bool
deriving DecidableEq

structure LongTermGoal where
  id : List Char
  title : List Char
  description : Option (List Char)
deriving DecidableEq

/-- A `TimeWindow` value; instants are epoch milliseconds. -/
structure TimeWindow where
  startTime : ℚ
  endTime : ℚ
  source : WindowSource
  eventName : Option (List Char)
deriving DecidableEq

/-- The face a `Date` instant shows to `formatEndTime`: local hours, minutes, and
whether `toDateString()` agrees with the current day (the `isToday` test). -/
structure DisplayTime where
  hours : ℕ
  minutes : ℕ
  sameDayAsNow : Bool
deriving DecidableEq

/-- Abstraction of the ambient JavaScript `Date` library at one instant:
the current epoch milliseconds, `getDay()` of the current date, the epoch
milliseconds of `new Date(y, m - 1, d)` set to 23:59:59.999 (end of day), and
the local rendering of an instant used by `formatEndTime`. -/
structure Clock where
  nowMs : ℚ
  weekday : ℕ
  endOfDayMs : ℕ → ℕ → ℕ → ℚ
  displayOf : ℚ → DisplayTime

structure Recommendation where
  task : Task
  reasonType : ReasonType
  explanation : List Char
  duration : ℚ
deriving DecidableEq

/-- Internal scored candidate produced during ranking. -/
structure ScoredCandidate where
  task : Task
  score : ℚ
  reasonType : ReasonType
  pressure : ℚ
  energyFit : ℚ
  durationFit : ℚ
  daysUntilDue : Option ℚ
deriving DecidableEq

/-! ### src/lib/recommendation.ts : parseDeadline -/

/-- JavaScript `\s` for the repo's inputs (ASCII whitespace). -/
def isWsChar (c : Char) : Bool := c = ' ' || c = '\t' || c = '\n' || c = '\r'

/-- `parseInt` on a list of decimal digit characters. -/
def digitsToNat (ds : List Char) : ℕ :=
  ds.foldl (fun n c => 10 * n + (c.toNat - 48)) 0

/-- Attempt to match the regex `due\s+(\d{1,2})\/(\d{1,2})\/(\d{4})` (case-insensitive
on the letters) at the head of the list, returning the captured month/day/year. -/
def matchDueAt (s : List Char) : Option (ℕ × ℕ × ℕ) :=
  match s with
  | c1 :: c2 :: c3 :: rest =>
    if (c1 = 'd' ∨ c1 = 'D') ∧ (c2 = 'u' ∨ c2 = 'U') ∧ (c3 = 'e' ∨ c3 = 'E') then
      let ws := rest.takeWhile isWsChar
      let r1 := rest.dropWhile isWsChar
      if ws = [] then none
      else
        let d1 := r1.takeWhile Char.isDigit
        let r2 := r1.dropWhile Char.isDigit
        if d1.length = 1 ∨ d1.length = 2 then
          match r2 with
          | '/' :: r3 =>
            let d2 := r3.takeWhile Char.isDigit
            let r4 := r3.dropWhile Char.isDigit
            if d2.length = 1 ∨ d2.length = 2 then
              match r4 with
              | '/' :: r5 =>
                let d3 := r5.takeWhile Char.isDigit
                if 4 ≤ d3.length then
                  some (digitsToNat d1, digitsToNat d2, digitsToNat (d3.take 4))
                else none
              | _ => none
            else none
          | _ => none
        else none
    else none
  | _ => none

/-- Leftmost match of the `due M/D/YYYY` regex in the string (JavaScript
`String.prototype.match` semantics for this pattern). -/
def firstDueMatch : List Char → Option (ℕ × ℕ × ℕ)
  | [] => none
  | c :: cs =>
    match matchDueAt (c :: cs) with
    | some r => some r
    | none => firstDueMatch cs

/-- Milliseconds in a day, as used by `parseDeadline`. -/
def msPerDay : ℚ := 1000 * 60 * 60 * 24

/-- `parseDeadline(deadline)` from src/lib/recommendation.ts.  The ambient
`new Date()` reads are supplied by `clock`. -/
def parseDeadline (clock : Clock) (deadline : List Char) : Option ℚ :=
  let lower := toLowerL deadline
  match firstDueMatch deadline with
  | some (m, d, y) => some ((clock.endOfDayMs m d y - clock.nowMs) / msPerDay)
  | none =>
    if strContains lower (lit "today") then some (1/2)
    else if strContains lower (lit "tomorrow") then some 1
    else if strContains lower (lit "friday") then
      let daysUntilFriday : ℤ := (5 - (clock.weekday : ℤ) + 7) % 7
      some (if daysUntilFriday = 0 then 7 else (daysUntilFriday : ℚ))
    else if strContains lower (lit "this week") then
      some (max 1 (7 - (clock.weekday : ℚ)))
    else if strContains lower (lit "when you have time") || strContains lower (lit "someday") then
      none
    else some 7

/-! ### src/lib/recommendation.ts : scoring -/

/-- The continuous pressure curve `MIN_PRESSURE + (100 - MIN_PRESSURE) / (1 + STEEPNESS * d * d)`
with `MIN_PRESSURE = 20` and `STEEPNESS = 2.0`. -/
def pressureCurve (d : ℚ) : ℚ := 20 + (100 - 20) / (1 + 2 * d * d)

/-- `computePressure(task, now)` from src/lib/recommendation.ts. -/
def computePressure (clock : Clock) (task : Task) : ℚ :=
  match task.taskType with
  | .growth => 10
  | .general => 5
  | .nonNegotiable =>
    match parseDeadline clock task.deadline with
    | none => 20
    | some daysUntilDue =>
      let adjustedDays := max daysUntilDue (1/10)
      max 20 (min 100 (pressureCurve adjustedDays))

/-- `computeEnergyFit(task, energy)` from src/lib/recommendation.ts. -/
def computeEnergyFit (task : Task) (energy : EnergyLevel) : ℚ :=
  let minutes := task.estimatedMinutes
  match energy with
  | .low =>
    if minutes ≤ 20 then 100
    else if minutes ≤ 30 then 70
    else if minutes ≤ 45 then 40
    else 10
  | .medium =>
    if 20 ≤ minutes ∧ minutes ≤ 45 then 100
    else if 15 ≤ minutes ∧ minutes ≤ 60 then 80
    else 50
  | .high =>
    if 30 ≤ minutes then 100
    else if 20 ≤ minutes then 80
    else 60

/-- `computeDurationFit(task, availableMinutes)` from src/lib/recommendation.ts. -/
def computeDurationFit (task : Task) (availableMinutes : ℚ) : ℚ :=
  let taskMinutes := task.estimatedMinutes
  if taskMinutes ≤ availableMinutes * (9/10) then 100
  else if taskMinutes ≤ availableMinutes then 70
  else
    let overage := taskMinutes - availableMinutes
    max 10 (60 - overage * 2)

/-! ### src/lib/recommendation.ts : generateExplanation -/

/-- The inner `formatEndTime` helper of `generateExplanation`: renders an end
instant as e.g. `9:30 PM`, or `tomorrow at 2 PM` when the date differs from today. -/
def formatEndTime (dt : DisplayTime) : List Char :=
  let hours := dt.hours
  let minutes := dt.minutes
  let ampm := if 12 ≤ hours then lit "PM" else lit "AM"
  let displayHours := if hours % 12 = 0 then 12 else hours % 12
  let displayMinutes := if 0 < minutes then ':' :: padTwo minutes else []
  if dt.sameDayAsNow then
    natToStr displayHours ++ displayMinutes ++ ' ' :: ampm
  else
    lit "tomorrow at" ++ ' ' :: (natToStr displayHours ++ displayMinutes ++ ' ' :: ampm)

/-- The goal lookup at the head of `generateExplanation`:
`task.goalId ? goals.find(g => g.id === task.goalId) : null`. -/
def findGoal (goals : List LongTermGoal) : Option (List Char) → Option LongTermGoal
  | some gid => goals.find? (fun g => g.id = gid)
  | none => none

theorem mem_goals_of_findGoal {goals : List LongTermGoal} {gid : Option (List Char)}
    {g : LongTermGoal} (h : findGoal goals gid = some g) : g ∈ goals := by
  cases gid with
  | none => exact absurd h (by simp [findGoal])
  | some i =>
    rw [findGoal] at h
    exact List.mem_of_find?_eq_some h

/-- `generateExplanation(task, reasonType, goals, daysUntilDue, pressure, endTime,
timeWindowSource)` from src/lib/recommendation.ts.  Template literals are written
as explicit concatenations, split at the interpolation boundaries. -/
def generateExplanation (task : Task) (reasonType : ReasonType)
    (goals : List LongTermGoal) (daysUntilDue : Option ℚ) (pressure : ℚ)
    (endDT : DisplayTime) (timeWindowSource : Option WindowSource) : List Char :=
  let goal : Option LongTermGoal := findGoal goals task.goalId
  let timeBoundary := formatEndTime endDT
  let isCal := timeWindowSource = some WindowSource.calendarSuggested
  match reasonType with
  | .corePressure =>
    match daysUntilDue with
    | some d =>
      if d < 1/2 then
        (if isCal then lit "This fits comfortably before your next commitment"
         else lit "This fits comfortably before" ++ ' ' :: timeBoundary) ++
        ',' :: lit " and addressing it now preserves your options for later."
      else if d ≤ 1 then
        lit "You have space now, before this becomes more constrained. This fits well in" ++
        ' ' :: ((if isCal then lit "the time you have before your next commitment"
                 else lit "the time you have until" ++ ' ' :: timeBoundary) ++ '.' :: [])
      else if d ≤ 3 then
        lit "This is approaching its deadline. Addressing it now while you have" ++
        ' ' :: ((if isCal then lit "the time before your next commitment"
                 else lit "time until" ++ ' ' :: timeBoundary) ++
                ' ' :: lit "prevents future constraints.")
      else if d ≤ 7 then
        lit "This core commitment is coming up. Starting now aligns well with" ++
        ' ' :: ((if isCal then lit "your time before your next commitment"
                 else lit "your time until" ++ ' ' :: timeBoundary) ++
                ' ' :: lit "and current energy.")
      else
        lit "This core obligation fits well with your available" ++
        ' ' :: ((if isCal then lit "the time before your next commitment"
                 else lit "time until" ++ ' ' :: timeBoundary) ++
                ' ' :: lit "and current energy.")
    | none =>
      lit "This core obligation aligns with your available" ++
      ' ' :: ((if isCal then lit "the time before your next commitment"
               else lit "time until" ++ ' ' :: timeBoundary) ++
              ' ' :: lit "and energy right now.")
  | .growthOpportunity =>
    match goal with
    | some g =>
      lit "You have" ++
      ' ' :: ((if isCal then lit "the time before your next commitment"
               else lit "space right now until" ++ ' ' :: timeBoundary) ++
              ' ' :: (lit "to make progress toward" ++
                      ' ' :: '"' :: (g.title ++
                      '"' :: lit ". This time aligns well with your energy.")))
    | none =>
      lit "You have" ++
      ' ' :: ((if isCal then lit "the time before your next commitment"
               else lit "space right now until" ++ ' ' :: timeBoundary) ++
              ' ' :: lit "for this growth task, and it fits well with your current energy.")

/-! ### src/lib/recommendation.ts : recommendTask -/

/-- The `isReminderTask` helper of `recommendTask`. -/
def isReminderTask (task : Task) : Bool :=
  let deadline := toLowerL task.deadline
  deadline = lit "reminder" ∨ deadline = lit "when you have time"

/-- The candidate filter of `recommendTask`: drop completed, in-progress,
explicitly excluded, and reminder tasks. -/
def candidateTasks (tasks : List Task) (excludeTaskIds : List (List Char)) : List Task :=
  tasks.filter fun task =>
    !task.completed && !task.inProgress &&
      !(excludeTaskIds.contains task.id) && !(isReminderTask task)

/-- The per-task scoring step of `recommendTask`. -/
def scoreTask (clock : Clock) (energy : EnergyLevel) (availableMinutes : ℚ)
    (task : Task) : ScoredCandidate :=
  let pressure := computePressure clock task
  let energyFit := computeEnergyFit task energy
  let durationFit := computeDurationFit task availableMinutes
  let score := pressure * (0.5 : ℚ) + energyFit * (0.3 : ℚ) + durationFit * (0.2 : ℚ)
  let reasonType : ReasonType :=
    if task.taskType = TaskType.nonNegotiable ∧ 50 < pressure then .corePressure
    else .growthOpportunity
  { task := task, score := score, reasonType := reasonType, pressure := pressure,
    energyFit := energyFit, durationFit := durationFit,
    daysUntilDue := parseDeadline clock task.deadline }

/-- The scored candidate list built inside `recommendTask`. -/
def scoredTasks (clock : Clock) (tasks : List Task) (energy : EnergyLevel)
    (excludeTaskIds : List (List Char)) (availableMinutes : ℚ) : List ScoredCandidate :=
  (candidateTasks tasks excludeTaskIds).map (scoreTask clock energy availableMinutes)

/-- `recommendTask(tasks, energy, goals, excludeTaskIds, availableMinutes,
timeWindowSource)` from src/lib/recommendation.ts.  The `.sort((a, b) => b.score -
a.score)` call is a stable descending sort on `score`. -/
def recommendTask (clock : Clock) (tasks : List Task) (energy : EnergyLevel)
    (goals : List LongTermGoal) (excludeTaskIds : List (List Char))
    (availableMinutes : ℚ) (timeWindowSource : Option WindowSource) :
    Option Recommendation :=
  if candidateTasks tasks excludeTaskIds = [] then none
  else
    let scored := scoredTasks clock tasks energy excludeTaskIds availableMinutes
    let sorted := scored.mergeSort (fun a b => b.score ≤ a.score)
    match sorted with
    | [] => none
    | best :: _ =>
      let duration := min best.task.estimatedMinutes availableMinutes
      let endDT := clock.displayOf (clock.nowMs + availableMinutes * 60000)
      some { task := best.task, reasonType := best.reasonType,
             explanation := generateExplanation best.task best.reasonType goals
               best.daysUntilDue best.pressure endDT timeWindowSource,
             duration := duration }

/-! ### src/components/clarity/TimeConfirmationDialog.tsx -/

/-- The dialog's props: the optional calendar suggestion and event name. -/
structure DialogProps where
  suggestedEndTime : Option ℚ
  suggestedSource : WindowSource
  eventName : Option (List Char)
deriving DecidableEq

/-- The dialog's local state: `endTime`, `source` and `validationMessage`. -/
structure DialogState where
  endTimeMs : ℚ
  source : WindowSource
  validationMessage : List Char
deriving DecidableEq

/-- The `useEffect` body that initialises the dialog when it opens: use the
calendar-suggested time when it lies in the future, otherwise now + 45 minutes
with source `system-default`; always clear the validation message. -/
def openDialog (props : DialogProps) (nowMs : ℚ) : DialogState :=
  match props.suggestedEndTime with
  | some suggested =>
    if nowMs < suggested then
      { endTimeMs := suggested, source := props.suggestedSource, validationMessage := [] }
    else
      { endTimeMs := nowMs + 45 * 60000, source := .systemDefault, validationMessage := [] }
  | none =>
    { endTimeMs := nowMs + 45 * 60000, source := .systemDefault, validationMessage := [] }

/-- `handleTimeChange`: the user edited the end-time field.  The instant parsed
from the field by `parseTimeFromInput` is the event's payload; the source
switches to `user` and the validation message clears. -/
def handleTimeChange (newEndTime : ℚ) : DialogState :=
  { endTimeMs := newEndTime, source := .user, validationMessage := [] }

/-- `handlePresetClick(minutes)`: end time becomes now + minutes, source `user`. -/
def handlePresetClick (nowMs minutes : ℚ) : DialogState :=
  { endTimeMs := nowMs + minutes * 60000, source := .user, validationMessage := [] }

/-- The validation message `handleConfirm` surfaces for short windows. -/
def shortWindowMessage : List Char := lit "This may be a bit short to start something."

/-- `handleConfirm`: recompute now, round the remaining minutes, reject windows
rounding below 10 minutes (setting the validation message and emitting nothing),
otherwise emit the `TimeWindow`. -/
def handleConfirm (props : DialogProps) (s : DialogState) (nowMs : ℚ) :
    DialogState × Option TimeWindow :=
  let availableMinutes := jsRound ((s.endTimeMs - nowMs) / 60000)
  if availableMinutes < 10 then
    ({ s with validationMessage := shortWindowMessage }, none)
  else
    (s, some { startTime := nowMs, endTime := s.endTimeMs, source := s.source,
               eventName := if s.source = WindowSource.calendarSuggested
                            then props.eventName else none })

/-- Events acting on the dialog state while it is open. -/
inductive DialogEvent
  | reopenEv (props : DialogProps) (nowMs : ℚ)
  | timeChangeEv (newEndTime : ℚ)
  | presetClickEv (nowMs minutes : ℚ)
  | confirmAttemptEv (props : DialogProps) (nowMs : ℚ)

/-- One dialog step; a failed confirm keeps the dialog open with its message set. -/
def stepDialog (s : DialogState) : DialogEvent → DialogState
  | .reopenEv props nowMs => openDialog props nowMs
  | .timeChangeEv newEndTime => handleTimeChange newEndTime
  | .presetClickEv nowMs minutes => handlePresetClick nowMs minutes
  | .confirmAttemptEv props nowMs => (handleConfirm props s nowMs).1

/-- Run a list of dialog events. -/
def runDialog (s : DialogState) (evs : List DialogEvent) : DialogState :=
  evs.foldl stepDialog s

/-- The two user actions available while awaiting confirmation. -/
def isUserEvent : DialogEvent → Bool
  | .timeChangeEv _ => true
  | .presetClickEv _ _ => true
  | _ => false

/-- Re-initialisation of the dialog (the open effect firing again). -/
def isReopenEvent : DialogEvent → Bool
  | .reopenEv _ _ => true
  | _ => false

/-! ### src/services/api.ts : the useClarity energy-change effect -/

/-- The slice of `useClarity` state the energy-change effect touches. -/
structure ClarityState where
  tasks : List Task
  goals : List LongTermGoal
  energy : EnergyLevel
  recommendation : Option Recommendation
  timeWindow : Option TimeWindow
  previousEnergy : EnergyLevel

/-- The `useEffect` in `useClarity` that reacts to an energy change: when a
recommendation and a time window are both active and the energy differs from the
previous value, re-run the ranker with the new energy, the same window and no
exclusions, replacing the displayed recommendation only when the result is
non-null; finally record the new energy as previous. -/
def energyChangeEffect (clock : Clock) (st : ClarityState) : ClarityState :=
  if st.previousEnergy = st.energy then st
  else
    let st' :=
      match st.recommendation, st.timeWindow with
      | some _, some tw =>
        let availableMinutes : ℚ :=
          (jsRound ((tw.endTime - tw.startTime) / 60000) : ℤ)
        match recommendTask clock st.tasks st.energy st.goals [] availableMinutes
            (some tw.source) with
        | some newRec => { st with recommendation := some newRec }
        | none => st
      | _, _ => st
    { st' with previousEnergy := st.energy }

/-! ### Witness fixtures -/

/-- A concrete clock for witnesses: a Wednesday, epoch 0, every end-of-day one day out. -/
def wClock : Clock :=
  { nowMs := 0, weekday := 3, endOfDayMs := fun _ _ _ => 86400000,
    displayOf := fun _ => ⟨9, 0, true⟩ }

/-- A concrete core-obligation task due tomorrow. -/
def wTaskCore : Task :=
  { id := lit "t1", title := lit "Finish report", estimatedMinutes := 20,
    deadline := lit "tomorrow", goalId := none, completed := false,
    taskType := .nonNegotiable, inProgress := false }

/-! ### C4 -/

/-- C4: `computePressure` returns the constant 10 for growth tasks, 5 for general
tasks, 20 for core-obligation tasks whose deadline parses to null, and otherwise
`20 + (100 - 20) / (1 + 2 d^2)` with `d = max(daysUntilDue, 0.1)`, clamped to
`[20, 100]`. -/
theorem C4_computePressure_formula (clock : Clock) (task : Task) :
    (task.taskType = .growth → computePressure clock task = 10) ∧
    (task.taskType = .general → computePressure clock task = 5) ∧
    (task.taskType = .nonNegotiable → parseDeadline clock task.deadline = none →
      computePressure clock task = 20) ∧
    (∀ d : ℚ, task.taskType = .nonNegotiable →
      parseDeadline clock task.deadline = some d →
      computePressure clock task
        = max 20 (min 100 (20 + (100 - 20) / (1 + 2 * (max d (1/10)) ^ 2)))) := by
  refine ⟨fun h => ?_, fun h => ?_, fun h hd => ?_, fun d h hd => ?_⟩
  · simp [computePressure, h]
  · simp [computePressure, h]
  · simp [computePressure, h, hd]
  · have hc : pressureCurve (max d (1/10))
        = 20 + (100 - 20) / (1 + 2 * (max d (1/10)) ^ 2) := by
      rw [pressureCurve]
      ring_nf
    simp only [computePressure, h, hd]
    rw [hc]

/-- C4 witness: the core task due tomorrow evaluates through the curve branch. -/
theorem C4_witness :
    computePressure wClock wTaskCore
      = max 20 (min 100 (20 + (100 - 20) / (1 + 2 * (max 1 (1/10 : ℚ)) ^ 2))) :=
  (C4_computePressure_formula wClock wTaskCore).2.2.2 1 rfl (by decide)

/-! ### C3 -/

/-- The energy-fit table exactly as the specification words it (for refinement
against `computeEnergyFit`). -/
def energyFitClaimed (energy : EnergyLevel) (minutes : ℚ) : ℚ :=
  match energy with
  | .low =>
    if minutes ≤ 20 then 100
    else if minutes ≤ 30 then 70
    else if minutes ≤ 45 then 40
    else 10
  | .medium =>
    if 20 ≤ minutes ∧ minutes ≤ 45 then 100
    else if 15 ≤ minutes ∧ minutes ≤ 60 then 80
    else 50
  | .high =>
    if 30 ≤ minutes then 100
    else if 20 ≤ minutes then 80
    else 60

/-- The duration-fit rule exactly as the specification words it (for refinement
against `computeDurationFit`). -/
def durationFitClaimed (taskMinutes availableMinutes : ℚ) : ℚ :=
  if taskMinutes ≤ (9/10) * availableMinutes then 100
  else if taskMinutes ≤ availableMinutes then 70
  else max 10 (60 - 2 * (taskMinutes - availableMinutes))

/-- C3: every candidate scored by `recommendTask` carries the composite score
`0.5 * pressure + 0.3 * energyFit + 0.2 * durationFit`, an energy fit equal to
the spec's table, and a duration fit equal to the spec's rule. -/
theorem C3_composite_score (clock : Clock) (tasks : List Task)
    (energy : EnergyLevel) (excludeTaskIds : List (List Char))
    (availableMinutes : ℚ) (c : ScoredCandidate)
    (hc : c ∈ scoredTasks clock tasks energy excludeTaskIds availableMinutes) :
    c.score = (0.5 : ℚ) * c.pressure + (0.3 : ℚ) * c.energyFit + (0.2 : ℚ) * c.durationFit ∧
    c.energyFit = energyFitClaimed energy c.task.estimatedMinutes ∧
    c.durationFit = durationFitClaimed c.task.estimatedMinutes availableMinutes := by
  rw [scoredTasks] at hc
  obtain ⟨t, _, rfl⟩ := List.mem_map.mp hc
  refine ⟨by rw [scoreTask]; ring, ?_, ?_⟩
  · rw [scoreTask]
    cases energy <;> rfl
  · have hfit : (scoreTask clock energy availableMinutes t).durationFit
        = computeDurationFit t availableMinutes := rfl
    have hproj : (scoreTask clock energy availableMinutes t).task = t := rfl
    rw [hfit, hproj]
    simp only [computeDurationFit, durationFitClaimed]
    rw [mul_comm availableMinutes ((9 : ℚ)/10)]
    split_ifs with h1 h2
    · rfl
    · rfl
    · congr 1
      ring

/-- C3 witness: the fixture task scored at low energy in a 60-minute window. -/
theorem C3_witness :
    (scoreTask wClock .low 60 wTaskCore).score
        = (0.5 : ℚ) * (scoreTask wClock .low 60 wTaskCore).pressure
          + (0.3 : ℚ) * (scoreTask wClock .low 60 wTaskCore).energyFit
          + (0.2 : ℚ) * (scoreTask wClock .low 60 wTaskCore).durationFit ∧
    (scoreTask wClock .low 60 wTaskCore).energyFit
        = energyFitClaimed .low (scoreTask wClock .low 60 wTaskCore).task.estimatedMinutes ∧
    (scoreTask wClock .low 60 wTaskCore).durationFit
        = durationFitClaimed (scoreTask wClock .low 60 wTaskCore).task.estimatedMinutes 60 :=
  C3_composite_score wClock [wTaskCore] .low [] 60 _
    (by rw [scoredTasks]; exact List.mem_map_of_mem _ (by decide))

/-! ### C7 -/

/-- The pressure curve over the reals, for the continuity statement. -/
noncomputable def pressureCurveR (x : ℝ) : ℝ := 20 + (100 - 20) / (1 + 2 * x * x)

theorem pressureCurve_strict_anti {d1 d2 : ℚ} (h0 : 0 < d1) (h : d1 < d2) :
    pressureCurve d2 < pressureCurve d1 := by
  rw [pressureCurve, pressureCurve]
  have hp1 : (0 : ℚ) < 1 + 2 * d1 * d1 := by positivity
  have hlt : 1 + 2 * d1 * d1 < 1 + 2 * d2 * d2 := by nlinarith
  have := div_lt_div_of_pos_left (show (0 : ℚ) < 100 - 20 by norm_num) hp1 hlt
  linarith

theorem pressureCurve_anti {d1 d2 : ℚ} (h0 : 0 < d1) (h : d1 ≤ d2) :
    pressureCurve d2 ≤ pressureCurve d1 := by
  rcases eq_or_lt_of_le h with rfl | hlt
  · exact le_refl _
  · exact le_of_lt (pressureCurve_strict_anti h0 hlt)

/-- C7: for core-obligation tasks, a smaller parsed `daysUntilDue` never yields a
smaller `computePressure`; the curve is strictly decreasing in the adjusted
distance `d ≥ 0.1`; and the curve (over ℝ) is continuous — no boundary jumps —
and agrees with the rational curve used by `computePressure`. -/
theorem C7_pressure_monotonicity :
    (∀ (clock : Clock) (t1 t2 : Task) (d1 d2 : ℚ),
      t1.taskType = .nonNegotiable → t2.taskType = .nonNegotiable →
      parseDeadline clock t1.deadline = some d1 →
      parseDeadline clock t2.deadline = some d2 →
      d1 ≤ d2 → computePressure clock t2 ≤ computePressure clock t1) ∧
    (∀ d1 d2 : ℚ, 1/10 ≤ d1 → d1 < d2 → pressureCurve d2 < pressureCurve d1) ∧
    Continuous pressureCurveR ∧
    (∀ d : ℚ, pressureCurveR (d : ℝ) = ((pressureCurve d : ℚ) : ℝ)) := by
  refine ⟨?_, ?_, ?_, ?_⟩
  · intro clock t1 t2 d1 d2 h1 h2 hp1 hp2 hle
    simp only [computePressure, h1, h2, hp1, hp2]
    have ha : (0 : ℚ) < max d1 (1/10) := lt_of_lt_of_le (by norm_num) (le_max_right _ _)
    have hmax : max d1 (1/10) ≤ max d2 (1/10) := max_le_max hle (le_refl _)
    exact max_le_max (le_refl 20)
      (min_le_min (le_refl 100) (pressureCurve_anti ha hmax))
  · intro d1 d2 h1 hlt
    exact pressureCurve_strict_anti (lt_of_lt_of_le (by norm_num) h1) hlt
  · unfold pressureCurveR
    refine continuous_const.add (Continuous.div continuous_const ?_ ?_)
    · continuity
    · intro x
      have hx : (0 : ℝ) < 1 + 2 * x * x := by nlinarith [mul_self_nonneg x]
      exact ne_of_gt hx
  · intro d
    rw [pressureCurveR, pressureCurve]
    push_cast
    ring

/-- C7 witness: two concrete core tasks, due tomorrow versus due in a week. -/
theorem C7_witness :
    computePressure wClock
        { wTaskCore with deadline := lit "whenever" }
      ≤ computePressure wClock wTaskCore ∧
    pressureCurve 7 < pressureCurve 1 :=
  ⟨(C7_pressure_monotonicity).1 wClock wTaskCore
      { wTaskCore with deadline := lit "whenever" } 1 7 rfl rfl
      (by decide) (by decide) (by norm_num),
   (C7_pressure_monotonicity).2.1 1 7 (by norm_num) (by norm_num)⟩

/-! ### C6 -/

/-- C6: `recommendTask` returns null exactly when the filtered candidate set is
empty; otherwise the recommended task is one of the candidates — in particular
never a completed, in-progress, excluded or reminder task. -/
theorem C6_null_iff_no_candidates (clock : Clock) (tasks : List Task)
    (energy : EnergyLevel) (goals : List LongTermGoal)
    (excludeTaskIds : List (List Char)) (availableMinutes : ℚ)
    (timeWindowSource : Option WindowSource) :
    (recommendTask clock tasks energy goals excludeTaskIds availableMinutes
        timeWindowSource = none
      ↔ candidateTasks tasks excludeTaskIds = []) ∧
    (∀ r, recommendTask clock tasks energy goals excludeTaskIds availableMinutes
        timeWindowSource = some r →
      r.task ∈ candidateTasks tasks excludeTaskIds ∧
      isReminderTask r.task = false ∧
      r.task.completed = false ∧ r.task.inProgress = false ∧
      excludeTaskIds.contains r.task.id = false) := by
  by_cases hempty : candidateTasks tasks excludeTaskIds = []
  · constructor
    · rw [recommendTask, if_pos hempty]
      simp [hempty]
    · intro r hr
      rw [recommendTask, if_pos hempty] at hr
      exact absurd hr (by simp)
  · have hscored : scoredTasks clock tasks energy excludeTaskIds availableMinutes ≠ [] := by
      rw [scoredTasks]
      simpa using hempty
    have hsorted :
        (scoredTasks clock tasks energy excludeTaskIds availableMinutes).mergeSort
          (fun a b => b.score ≤ a.score) ≠ [] := by
      intro h
      apply hscored
      have hperm := List.mergeSort_perm
        (scoredTasks clock tasks energy excludeTaskIds availableMinutes)
        (fun a b => b.score ≤ a.score)
      rw [h] at hperm
      exact (List.Perm.nil_eq hperm).symm
    obtain ⟨best, rest, hbr⟩ :=
      List.exists_cons_of_ne_nil hsorted
    have hsome : recommendTask clock tasks energy goals excludeTaskIds availableMinutes
        timeWindowSource
        = some { task := best.task, reasonType := best.reasonType,
                 explanation := generateExplanation best.task best.reasonType goals
                   best.daysUntilDue best.pressure
                   (clock.displayOf (clock.nowMs + availableMinutes * 60000))
                   timeWindowSource,
                 duration := min best.task.estimatedMinutes availableMinutes } := by
      rw [recommendTask, if_neg hempty]
      simp only [hbr]
    have hmem : best.task ∈ candidateTasks tasks excludeTaskIds := by
      have hin : best ∈ (scoredTasks clock tasks energy excludeTaskIds
          availableMinutes).mergeSort (fun a b => b.score ≤ a.score) := by
        rw [hbr]
        exact List.mem_cons_self _ _
      have hin2 : best ∈ scoredTasks clock tasks energy excludeTaskIds availableMinutes :=
        List.mem_mergeSort.mp hin
      rw [scoredTasks] at hin2
      obtain ⟨t, ht, rfl⟩ := List.mem_map.mp hin2
      exact ht
    have hfilter := List.of_mem_filter hmem
    simp only [Bool.and_eq_true, Bool.not_eq_true'] at hfilter
    constructor
    · rw [hsome]
      simp [hempty]
    · intro r hr
      rw [hsome] at hr
      injection hr with hr
      subst hr
      refine ⟨hmem, ?_, ?_, ?_, ?_⟩
      · exact hfilter.2
      · exact hfilter.1.1.1
      · exact hfilter.1.1.2
      · exact hfilter.1.2

/-- C6 witness: with the single fixture task no-recommendation is impossible, and
with an empty task list the result is null. -/
theorem C6_witness :
    (recommendTask wClock [] .low [] [] 60 none = none) ∧
    ∀ r, recommendTask wClock [wTaskCore] .low [] [] 60 none = some r →
      r.task ∈ candidateTasks [wTaskCore] [] :=
  ⟨(C6_null_iff_no_candidates wClock [] .low [] [] 60 none).1.mpr rfl,
   fun r hr => ((C6_null_iff_no_candidates wClock [wTaskCore] .low [] [] 60 none).2 r hr).1⟩

/-! ### C5 -/

/-- C5: `parseDeadline` applies its recognized forms in priority order: the
`due M/D/YYYY` pattern gives the exact (possibly negative, fractional) days to
end-of-day; else "today" gives 0.5; else "tomorrow" gives 1; else "friday" gives
the days to the next Friday (a current Friday counts as 7); else "this week"
gives `max(1, 7 - weekday)`; else "when you have time"/"someday" give null; any
other text gives the default 7. -/
theorem C5_parseDeadline_priority (clock : Clock) (s : List Char)
    (hw : clock.weekday < 7) :
    (∀ m d y, firstDueMatch s = some (m, d, y) →
      parseDeadline clock s
        = some ((clock.endOfDayMs m d y - clock.nowMs) / msPerDay)) ∧
    (firstDueMatch s = none →
      strContains (toLowerL s) (lit "today") = true →
      parseDeadline clock s = some (1/2)) ∧
    (firstDueMatch s = none →
      strContains (toLowerL s) (lit "today") = false →
      strContains (toLowerL s) (lit "tomorrow") = true →
      parseDeadline clock s = some 1) ∧
    (firstDueMatch s = none →
      strContains (toLowerL s) (lit "today") = false →
      strContains (toLowerL s) (lit "tomorrow") = false →
      strContains (toLowerL s) (lit "friday") = true →
      ∃ n : ℕ, parseDeadline clock s = some (n : ℚ) ∧
        1 ≤ n ∧ n ≤ 7 ∧ (clock.weekday + n) % 7 = 5 ∧
        (clock.weekday = 5 → n = 7)) ∧
    (firstDueMatch s = none →
      strContains (toLowerL s) (lit "today") = false →
      strContains (toLowerL s) (lit "tomorrow") = false →
      strContains (toLowerL s) (lit "friday") = false →
      strContains (toLowerL s) (lit "this week") = true →
      parseDeadline clock s = some (max 1 (7 - (clock.weekday : ℚ)))) ∧
    (firstDueMatch s = none →
      strContains (toLowerL s) (lit "today") = false →
      strContains (toLowerL s) (lit "tomorrow") = false →
      strContains (toLowerL s) (lit "friday") = false →
      strContains (toLowerL s) (lit "this week") = false →
      (strContains (toLowerL s) (lit "when you have time")
        || strContains (toLowerL s) (lit "someday")) = true →
      parseDeadline clock s = none) ∧
    (firstDueMatch s = none →
      strContains (toLowerL s) (lit "today") = false →
      strContains (toLowerL s) (lit "tomorrow") = false →
      strContains (toLowerL s) (lit "friday") = false →
      strContains (toLowerL s) (lit "this week") = false →
      (strContains (toLowerL s) (lit "when you have time")
        || strContains (toLowerL s) (lit "someday")) = false →
      parseDeadline clock s = some 7) := by
  obtain ⟨nowMs, w, endOfDayMs, displayOf⟩ := clock
  have hw7 : w < 7 := hw
  refine ⟨?_, ?_, ?_, ?_, ?_, ?_, ?_⟩
  · intro m d y hm
    simp only [parseDeadline, hm]
  · intro hm h1
    simp only [parseDeadline, hm, h1, if_true]
  · intro hm h1 h2
    simp only [parseDeadline, hm, h1, h2, Bool.false_eq_true, if_false, if_true]
  · intro hm h1 h2 h3
    simp only [parseDeadline, hm, h1, h2, h3, Bool.false_eq_true, if_false, if_true]
    interval_cases w
    · exact ⟨5, by norm_num⟩
    · exact ⟨4, by norm_num⟩
    · exact ⟨3, by norm_num⟩
    · exact ⟨2, by norm_num⟩
    · exact ⟨1, by norm_num⟩
    · exact ⟨7, by norm_num⟩
    · exact ⟨6, by norm_num⟩
  · intro hm h1 h2 h3 h4
    simp only [parseDeadline, hm, h1, h2, h3, h4, Bool.false_eq_true, if_false, if_true]
  · intro hm h1 h2 h3 h4 h5
    simp only [parseDeadline, hm, h1, h2, h3, h4, h5, Bool.false_eq_true, if_false,
      if_true]
  · intro hm h1 h2 h3 h4 h5
    simp only [parseDeadline, hm, h1, h2, h3, h4, h5, Bool.false_eq_true, if_false]

/-- C5 witness: the string "today" parses to half a day on the fixture clock. -/
theorem C5_witness : parseDeadline wClock (lit "today") = some (1/2) :=
  (C5_parseDeadline_priority wClock (lit "today") (by decide)).2.1
    (by decide) (by decide)

/-! ### C1 -/

theorem stepDialog_user_source {s : DialogState} {e : DialogEvent}
    (h : isUserEvent e = true) : (stepDialog s e).source = .user := by
  cases e with
  | timeChangeEv t => rfl
  | presetClickEv n m => rfl
  | reopenEv p n => exact absurd h (by simp [isUserEvent])
  | confirmAttemptEv p n => exact absurd h (by simp [isUserEvent])

theorem runDialog_preserves_user {s : DialogState} {evs : List DialogEvent}
    (hs : s.source = .user) (hnr : ∀ ev ∈ evs, isReopenEvent ev = false) :
    (runDialog s evs).source = .user := by
  induction evs generalizing s with
  | nil => exact hs
  | cons ev rest ih =>
    have hrest : ∀ e ∈ rest, isReopenEvent e = false :=
      fun e he => hnr e (List.mem_cons_of_mem ev he)
    have hstep : (stepDialog s ev).source = .user := by
      cases ev with
      | reopenEv p n =>
        exact absurd (hnr _ (List.mem_cons_self _ _)) (by simp [isReopenEvent])
      | timeChangeEv t => rfl
      | presetClickEv n m => rfl
      | confirmAttemptEv p n =>
        show ((handleConfirm p s n).1).source = .user
        rw [handleConfirm]
        split_ifs <;> exact hs
    exact ih hstep hrest

theorem handleConfirm_emits {props : DialogProps} {s : DialogState} {nowMs : ℚ}
    {w : TimeWindow} (h : (handleConfirm props s nowMs).2 = some w) :
    w.startTime = nowMs ∧ w.endTime = s.endTimeMs ∧ w.source = s.source ∧
    w.eventName = (if s.source = WindowSource.calendarSuggested
                   then props.eventName else none) := by
  rw [handleConfirm] at h
  by_cases h10 : jsRound ((s.endTimeMs - nowMs) / 60000) < 10
  · rw [if_pos h10] at h
    exact absurd h (by simp)
  · rw [if_neg h10] at h
    injection h with h
    subst h
    exact ⟨rfl, rfl, rfl, rfl⟩

/-- C1: once the user edits the end-time field or clicks a preset, the dialog's
source is `user`, and — absent a re-initialisation — every window confirmed
afterwards carries source `user`, never `calendar-suggested`, even when a
calendar suggestion had been preloaded. -/
theorem C1_window_override (s : DialogState) (e : DialogEvent)
    (evs : List DialogEvent) (props : DialogProps) (nowMs : ℚ) (w : TimeWindow)
    (huser : isUserEvent e = true)
    (hnoreopen : ∀ ev ∈ evs, isReopenEvent ev = false)
    (hconf : (handleConfirm props (runDialog (stepDialog s e) evs) nowMs).2 = some w) :
    (stepDialog s e).source = .user ∧
    w.source = .user ∧ w.source ≠ .calendarSuggested := by
  have hsrc : (runDialog (stepDialog s e) evs).source = .user :=
    runDialog_preserves_user (stepDialog_user_source huser) hnoreopen
  have hw := (handleConfirm_emits hconf).2.2.1
  rw [hsrc] at hw
  exact ⟨stepDialog_user_source huser, hw, by rw [hw]; simp⟩

/-- The preloaded calendar suggestion used in the C1 witness. -/
def wProps : DialogProps :=
  { suggestedEndTime := some 900000, suggestedSource := .calendarSuggested,
    eventName := some (lit "Standup") }

/-- C1 witness: the dialog opens on a calendar suggestion, the user clicks the
+20-minute preset, and the confirmed window's source is `user`. -/
theorem C1_witness :
    (stepDialog (openDialog wProps 0) (.presetClickEv 0 20)).source = .user ∧
    (⟨0, 1200000, WindowSource.user, none⟩ : TimeWindow).source = .user ∧
    (⟨0, 1200000, WindowSource.user, none⟩ : TimeWindow).source
      ≠ .calendarSuggested := by
  refine C1_window_override (openDialog wProps 0) (.presetClickEv 0 20) [] wProps 0
    ⟨0, 1200000, WindowSource.user, none⟩ rfl (by simp) ?_
  rw [runDialog, List.foldl_nil]
  show (handleConfirm wProps (handlePresetClick 0 20) 0).2 = _
  rw [handlePresetClick, handleConfirm]
  norm_num [jsRound]
  intro h
  cases h

/-! ### C2 -/

/-- C2 counterexample: with the end time 9.5 minutes after now (570000 ms), the
difference `endTime - now` is strictly below 10 minutes, yet `handleConfirm`
emits a window — `Math.round` lets 9.5-minute windows pass validation. -/
theorem C2_counterexample :
    ((handleConfirm ⟨none, .systemDefault, none⟩
        ⟨570000, .user, []⟩ 0).2).isSome = true ∧
    (570000 : ℚ) - 0 < 10 * 60000 := by
  constructor
  · rw [handleConfirm]
    norm_num [jsRound]
  · norm_num

/-- C2 (amended): on confirm the dialog recomputes now and emits
`TimeWindow{startTime := now, endTime, source, eventName present only when the
source is calendar-suggested}` if and only if the rounded minute count
`round((endTime - now) / 60000)` is at least 10 (i.e. `endTime - now ≥ 9.5`
minutes); on failure it emits nothing and only sets the validation message; a
window of now + 5 minutes always fails. -/
theorem C2_confirm_validation (props : DialogProps) (s : DialogState) (nowMs : ℚ) :
    (∀ w, (handleConfirm props s nowMs).2 = some w →
      w = { startTime := nowMs, endTime := s.endTimeMs, source := s.source,
            eventName := if s.source = WindowSource.calendarSuggested
                         then props.eventName else none } ∧
      (w.eventName ≠ none → w.source = .calendarSuggested)) ∧
    ((handleConfirm props s nowMs).2 ≠ none
      ↔ 10 ≤ jsRound ((s.endTimeMs - nowMs) / 60000)) ∧
    ((handleConfirm props s nowMs).2 = none →
      (handleConfirm props s nowMs).1
        = { s with validationMessage := shortWindowMessage }) ∧
    (∀ src msg, (handleConfirm props ⟨nowMs + 5 * 60000, src, msg⟩ nowMs).2 = none) := by
  refine ⟨?_, ?_, ?_, ?_⟩
  · intro w hw
    obtain ⟨h1, h2, h3, h4⟩ := handleConfirm_emits hw
    constructor
    · cases w
      simp only at h1 h2 h3 h4
      simp [h1, h2, h3, h4]
    · intro hev
      by_cases hcal : s.source = WindowSource.calendarSuggested
      · rw [h3, hcal]
      · rw [if_neg hcal] at h4
        exact absurd h4 hev
  · rw [handleConfirm]
    by_cases h10 : jsRound ((s.endTimeMs - nowMs) / 60000) < 10
    · rw [if_pos h10]
      simp
      omega
    · rw [if_neg h10]
      simp
      omega
  · intro hnone
    rw [handleConfirm] at hnone ⊢
    by_cases h10 : jsRound ((s.endTimeMs - nowMs) / 60000) < 10
    · rw [if_pos h10]
    · rw [if_neg h10] at hnone
      exact absurd hnone (by simp)
  · intro src msg
    rw [handleConfirm]
    have h5 : ((⟨nowMs + 5 * 60000, src, msg⟩ : DialogState).endTimeMs - nowMs) / 60000
        = 5 := by
      show (nowMs + 5 * 60000 - nowMs) / 60000 = 5
      ring
    rw [h5]
    norm_num [jsRound]

/-- C2 witness: a five-minute window fails validation on concrete inputs. -/
theorem C2_witness :
    (handleConfirm ⟨none, .systemDefault, none⟩ ⟨0 + 5 * 60000, .user, []⟩ 0).2
      = none :=
  (C2_confirm_validation ⟨none, .systemDefault, none⟩ ⟨0 + 5 * 60000, .user, []⟩ 0).2.2.2
    .user []

/-! ### C10 -/

/-- C10: when a recommendation and a time window are both active and the energy
level changed, the effect re-runs the ranker with the new energy, the stored
window and no exclusions, replaces the displayed recommendation only when the
result is non-null, and therefore leaves some recommendation active. -/
theorem C10_energy_change_keeps_recommendation (clock : Clock) (st : ClarityState)
    (r : Recommendation) (tw : TimeWindow)
    (hr : st.recommendation = some r) (htw : st.timeWindow = some tw)
    (hne : st.previousEnergy ≠ st.energy) :
    (energyChangeEffect clock st).recommendation
      = (match recommendTask clock st.tasks st.energy st.goals []
            ((jsRound ((tw.endTime - tw.startTime) / 60000) : ℤ) : ℚ)
            (some tw.source) with
         | some newRec => some newRec
         | none => some r) ∧
    ((energyChangeEffect clock st).recommendation).isSome = true ∧
    (energyChangeEffect clock st).previousEnergy = st.energy := by
  cases hres : recommendTask clock st.tasks st.energy st.goals []
      ((jsRound ((tw.endTime - tw.startTime) / 60000) : ℤ) : ℚ) (some tw.source) with
  | none =>
    refine ⟨?_, ?_, ?_⟩ <;> simp [energyChangeEffect, hne, hr, htw, hres]
  | some newRec =>
    refine ⟨?_, ?_, ?_⟩ <;> simp [energyChangeEffect, hne, hr, htw, hres]

/-- A pre-existing displayed recommendation for the C10 witness. -/
def wRec : Recommendation :=
  { task := wTaskCore, reasonType := .growthOpportunity,
    explanation := lit "placeholder", duration := 20 }

/-- The clarity state for the C10 witness: active recommendation and window,
energy freshly changed from low to high. -/
def wState : ClarityState :=
  { tasks := [wTaskCore], goals := [], energy := .high,
    recommendation := some wRec,
    timeWindow := some ⟨0, 1800000, .user, none⟩, previousEnergy := .low }

/-- C10 witness: after the energy change a recommendation is still active. -/
theorem C10_witness :
    ((energyChangeEffect wClock wState).recommendation).isSome = true :=
  (C10_energy_change_keeps_recommendation wClock wState wRec ⟨0, 1800000, .user, none⟩
    rfl rfl (by decide)).2.1

theorem strContains_append_left {a needle : List Char} (b : List Char)
    (h : strContains a needle = true) : strContains (a ++ b) needle = true := by
  obtain ⟨x, y, hxy⟩ := exists_decomp_of_strContains h
  subst hxy
  refine strContains_of_decomp (x := x) (y := y ++ b) ?_
  simp

/-! ### C8 -/

/-- C8: with a calendar-suggested window the explanation is independent of the
end time (two runs differing only in the end instant coincide) and always says
"before your next commitment"; with a user or system-default window the
explanation quotes the formatted end time. -/
theorem C8_calendar_source_privacy (task : Task) (rt : ReasonType)
    (goals : List LongTermGoal) (days : Option ℚ) (p : ℚ)
    (dt1 dt2 : DisplayTime) (src : Option WindowSource) :
    (src = some .calendarSuggested →
      generateExplanation task rt goals days p dt1 src
        = generateExplanation task rt goals days p dt2 src ∧
      strContains (generateExplanation task rt goals days p dt1 src)
        (lit "before your next commitment") = true) ∧
    ((src = some .user ∨ src = some .systemDefault) →
      strContains (generateExplanation task rt goals days p dt1 src)
        (formatEndTime dt1) = true) := by
  constructor
  · rintro rfl
    refine ⟨?_, ?_⟩
    · cases rt with
      | corePressure =>
        cases days with
        | none => simp [generateExplanation]
        | some d => simp [generateExplanation]
      | growthOpportunity => simp [generateExplanation]
    · cases rt with
      | corePressure =>
        cases days with
        | none =>
          simp [generateExplanation]
          try decide
        | some d =>
          simp [generateExplanation]
          split_ifs <;> decide
      | growthOpportunity =>
        cases hgoal : findGoal goals task.goalId with
        | none =>
          simp [generateExplanation, hgoal]
          try decide
        | some g =>
          simp only [generateExplanation, hgoal]
          have hcal : (some WindowSource.calendarSuggested
              = some WindowSource.calendarSuggested) = True := by simp
          simp only [hcal, if_true]
          apply strContains_append_right
          apply strContains_cons_of
          apply strContains_append_left
          decide
  · intro hsrc
    have hred : ∀ x y : List Char,
        (if src = some WindowSource.calendarSuggested then x else y) = y := by
      intro x y
      rcases hsrc with rfl | rfl <;> simp
    cases rt with
    | corePressure =>
      cases days with
      | none =>
        simp only [generateExplanation, hred, List.append_assoc, List.cons_append]
        repeat
          first
          | exact strContains_pref _ _
          | apply strContains_append_right
          | apply strContains_cons_of
      | some d =>
        simp only [generateExplanation, hred]
        split_ifs <;>
        · simp only [List.append_assoc, List.cons_append]
          repeat
            first
            | exact strContains_pref _ _
            | apply strContains_append_right
            | apply strContains_cons_of
    | growthOpportunity =>
      cases hgoal : findGoal goals task.goalId with
      | none =>
        simp only [generateExplanation, hgoal, hred, List.append_assoc,
          List.cons_append]
        repeat
          first
          | exact strContains_pref _ _
          | apply strContains_append_right
          | apply strContains_cons_of
      | some g =>
        simp only [generateExplanation, hgoal, hred, List.append_assoc,
          List.cons_append]
        repeat
          first
          | exact strContains_pref _ _
          | apply strContains_append_right
          | apply strContains_cons_of

/-- C8 witness: concrete runs with two different end times under a calendar
window coincide, and a user window quotes the formatted time. -/
theorem C8_witness :
    (generateExplanation wTaskCore .corePressure [] (some 1) 60 ⟨9, 0, true⟩
        (some .calendarSuggested)
      = generateExplanation wTaskCore .corePressure [] (some 1) 60 ⟨21, 30, true⟩
        (some .calendarSuggested)) ∧
    strContains (generateExplanation wTaskCore .corePressure [] (some 1) 60
        ⟨9, 0, true⟩ (some .user)) (formatEndTime ⟨9, 0, true⟩) = true :=
  ⟨((C8_calendar_source_privacy wTaskCore .corePressure [] (some 1) 60 ⟨9, 0, true⟩
      ⟨21, 30, true⟩ (some .calendarSuggested)).1 rfl).1,
   (C8_calendar_source_privacy wTaskCore .corePressure [] (some 1) 60 ⟨9, 0, true⟩
      ⟨21, 30, true⟩ (some .user)).2 (Or.inl rfl)⟩

/-! ### C9 machinery -/

/-- The urgency words the spec bans, plus "later" (the word the code does use). -/
def urgencyNeedles : List (List Char) :=
  [lit "overdue", lit "urgent", lit "late", lit "later"]

/-- A string free of every needle in `urgencyNeedles`. -/
abbrev cleanStr (l : List Char) : Prop :=
  ∀ n ∈ urgencyNeedles, strContains l n = false

theorem cleanStr_glue {a b : List Char} {c : Char}
    (hc : ∀ n ∈ urgencyNeedles, c ∉ n) (ha : cleanStr a) (hb : cleanStr b) :
    cleanStr (a ++ c :: b) := fun n hn =>
  strContains_glue_false (hc n hn)
    (by revert hn; revert n; decide) (ha n hn) (hb n hn)

theorem mem_allowed_of_digit {c : Char} (h : c ∈ lit "0123456789") :
    c ∈ lit "0123456789: APMtomrwa" := by
  fin_cases h <;> decide

/-- Every character `formatEndTime` can emit. -/
theorem formatEndTime_chars (dt : DisplayTime) :
    ∀ c ∈ formatEndTime dt, c ∈ lit "0123456789: APMtomrwa" := by
  intro c hc
  have hcore : ∀ x ∈ (natToStr (if dt.hours % 12 = 0 then 12 else dt.hours % 12) ++
      (if 0 < dt.minutes then ':' :: padTwo dt.minutes else []) ++
      ' ' :: (if 12 ≤ dt.hours then lit "PM" else lit "AM")),
      x ∈ lit "0123456789: APMtomrwa" := by
    intro x hx
    rcases List.mem_append.mp hx with hx | hx
    · rcases List.mem_append.mp hx with hx | hx
      · exact mem_allowed_of_digit (natToStr_subset_digits _ x hx)
      · by_cases hm : 0 < dt.minutes
        · rw [if_pos hm] at hx
          rcases List.mem_cons.mp hx with rfl | hx
          · decide
          · exact mem_allowed_of_digit (padTwo_subset_digits _ x hx)
        · rw [if_neg hm] at hx
          exact absurd hx (List.not_mem_nil x)
    · rcases List.mem_cons.mp hx with rfl | hx
      · decide
      · by_cases hh : 12 ≤ dt.hours
        · rw [if_pos hh] at hx
          fin_cases hx <;> decide
        · rw [if_neg hh] at hx
          fin_cases hx <;> decide
  rw [formatEndTime] at hc
  by_cases hsd : dt.sameDayAsNow
  · rw [if_pos hsd] at hc
    exact hcore c (by simpa [List.append_assoc] using hc)
  · rw [if_neg hsd] at hc
    rcases List.mem_append.mp hc with hc | hc
    · fin_cases hc <;> decide
    · rcases List.mem_cons.mp hc with rfl | hc
      · decide
      · exact hcore c (by simpa [List.append_assoc] using hc)

/-- The formatted end time never contains an urgency needle. -/
theorem cleanStr_formatEndTime (dt : DisplayTime) : cleanStr (formatEndTime dt) := by
  intro n hn
  have hmiss : ∀ x : Char, x ∉ lit "0123456789: APMtomrwa" → x ∉ formatEndTime dt :=
    fun x hx h => hx (formatEndTime_chars dt x h)
  simp only [urgencyNeedles, List.mem_cons, List.not_mem_nil, or_false] at hn
  rcases hn with rfl | rfl | rfl | rfl
  · exact strContains_eq_false_of_missing (c := 'v') (by decide) (hmiss 'v' (by decide))
  · exact strContains_eq_false_of_missing (c := 'g') (by decide) (hmiss 'g' (by decide))
  · exact strContains_eq_false_of_missing (c := 'l') (by decide) (hmiss 'l' (by decide))
  · exact strContains_eq_false_of_missing (c := 'l') (by decide) (hmiss 'l' (by decide))

theorem strContains_of_contains_append {hay n z : List Char}
    (h : strContains hay (n ++ z) = true) : strContains hay n = true := by
  obtain ⟨x, y, hxy⟩ := exists_decomp_of_strContains h
  refine strContains_of_decomp (x := x) (y := z ++ y) ?_
  rw [hxy]
  simp

/-- A goal title containing none of the three banned words is clean (it cannot
contain "later" either, since "later" contains "late"). -/
theorem cleanStr_of_no_banned {t : List Char}
    (h1 : strContains t (lit "overdue") = false)
    (h2 : strContains t (lit "urgent") = false)
    (h3 : strContains t (lit "late") = false) : cleanStr t := by
  intro n hn
  simp only [urgencyNeedles, List.mem_cons, List.not_mem_nil, or_false] at hn
  rcases hn with rfl | rfl | rfl | rfl
  · exact h1
  · exact h2
  · exact h3
  · cases h : strContains t (lit "later") with
    | false => rfl
    | true =>
      have : strContains t (lit "late") = true :=
        strContains_of_contains_append (z := lit "r") (by simpa using h)
      rw [this] at h3
      exact absurd h3 (by simp)

/-- Package a clean explanation into the C9 conclusion. -/
theorem noUrgency_of_cleanStr {e : List Char} (h : cleanStr e) :
    strContains e (lit "overdue") = false ∧
    strContains e (lit "urgent") = false ∧
    strContains e (lit "late") = strContains e (lit "later") := by
  refine ⟨h (lit "overdue") (by decide), h (lit "urgent") (by decide), ?_⟩
  rw [h (lit "late") (by decide), h (lit "later") (by decide)]

/-! ### C9 -/

/-- C9 counterexample: in the due-today branch the code's own explanation ends
with "… preserves your options for later.", which contains the substring
"late" — the claim "the explanation contains none of 'overdue', 'late',
'urgent'" fails on this concrete input. -/
theorem C9_counterexample :
    strContains
      (generateExplanation wTaskCore .corePressure [] (some 0) 80 ⟨9, 0, true⟩
        (some .user))
      (lit "late") = true := by
  have hhalf : ((0 : ℚ) < 1/2) := by norm_num
  simp only [generateExplanation, findGoal]
  norm_num [wTaskCore]
  decide

/-- C9 (amended): provided no goal title contains "overdue", "urgent" or
"late", the generated explanation never contains "overdue" or "urgent", and it
contains "late" exactly where it contains "later" — the only occurrence of
"late" is inside the harmless word "later", never as an urgency word. -/
theorem C9_no_urgency_words (task : Task) (rt : ReasonType)
    (goals : List LongTermGoal) (days : Option ℚ) (p : ℚ) (dt : DisplayTime)
    (src : Option WindowSource)
    (hgoals : ∀ g ∈ goals, strContains g.title (lit "overdue") = false ∧
      strContains g.title (lit "urgent") = false ∧
      strContains g.title (lit "late") = false) :
    strContains (generateExplanation task rt goals days p dt src)
      (lit "overdue") = false ∧
    strContains (generateExplanation task rt goals days p dt src)
      (lit "urgent") = false ∧
    strContains (generateExplanation task rt goals days p dt src) (lit "late")
      = strContains (generateExplanation task rt goals days p dt src)
          (lit "later") := by
  have htitle : ∀ g ∈ goals, cleanStr g.title := fun g hg =>
    cleanStr_of_no_banned (hgoals g hg).1 (hgoals g hg).2.1 (hgoals g hg).2.2
  by_cases hcal : src = some WindowSource.calendarSuggested
  · subst hcal
    have hc2 : (some WindowSource.calendarSuggested
        = some WindowSource.calendarSuggested) = True := by simp
    cases rt with
    | corePressure =>
      cases days with
      | none =>
        simp only [generateExplanation, hc2, if_true]
        decide
      | some d =>
        simp only [generateExplanation, hc2, if_true]
        split_ifs <;> decide
    | growthOpportunity =>
      cases hgoal : findGoal goals task.goalId with
      | none =>
        simp only [generateExplanation, hgoal, hc2, if_true]
        decide
      | some g =>
        have hg : g ∈ goals := mem_goals_of_findGoal hgoal
        simp only [generateExplanation, hgoal, hc2, if_true]
        apply noUrgency_of_cleanStr
        try simp only [List.append_assoc, List.cons_append]
        refine cleanStr_glue (by decide) (by decide) ?_
        refine cleanStr_glue (by decide) (by decide) ?_
        refine cleanStr_glue (by decide) (by decide) ?_
        exact cleanStr_glue (a := []) (by decide) (by decide)
          (cleanStr_glue (by decide) (htitle g hg) (by decide))
  · have hred : ∀ x y : List Char,
        (if src = some WindowSource.calendarSuggested then x else y) = y := by
      intro x y
      rw [if_neg hcal]
    cases rt with
    | corePressure =>
      cases days with
      | none =>
        simp only [generateExplanation, hred]
        apply noUrgency_of_cleanStr
        try simp only [List.append_assoc, List.cons_append]
        refine cleanStr_glue (by decide) (by decide) ?_
        refine cleanStr_glue (by decide) (by decide) ?_
        exact cleanStr_glue (by decide) (cleanStr_formatEndTime dt) (by decide)
      | some d =>
        simp only [generateExplanation, hred]
        split_ifs with h1 h2 h3 h4
        · -- the "preserves your options for later." branch
          try simp only [List.append_assoc, List.cons_append]
          refine ⟨?_, ?_, ?_⟩
          · refine strContains_glue_false (by decide) (by decide) (by decide) ?_
            refine strContains_glue_false (by decide) (by decide)
              (cleanStr_formatEndTime dt _ (by decide)) (by decide)
          · refine strContains_glue_false (by decide) (by decide) (by decide) ?_
            refine strContains_glue_false (by decide) (by decide)
              (cleanStr_formatEndTime dt _ (by decide)) (by decide)
          · have hlate : strContains (lit "This fits comfortably before" ++
                ' ' :: (formatEndTime dt ++
                  ',' :: lit " and addressing it now preserves your options for later."))
                (lit "late") = true := by
              apply strContains_append_right
              apply strContains_cons_of
              apply strContains_append_right
              apply strContains_cons_of
              decide
            have hlater : strContains (lit "This fits comfortably before" ++
                ' ' :: (formatEndTime dt ++
                  ',' :: lit " and addressing it now preserves your options for later."))
                (lit "later") = true := by
              apply strContains_append_right
              apply strContains_cons_of
              apply strContains_append_right
              apply strContains_cons_of
              decide
            rw [hlate, hlater]
        · apply noUrgency_of_cleanStr
          try simp only [List.append_assoc, List.cons_append]
          refine cleanStr_glue (by decide) (by decide) ?_
          refine cleanStr_glue (by decide) (by decide) ?_
          exact cleanStr_glue (by decide) (cleanStr_formatEndTime dt) (by decide)
        · apply noUrgency_of_cleanStr
          try simp only [List.append_assoc, List.cons_append]
          refine cleanStr_glue (by decide) (by decide) ?_
          refine cleanStr_glue (by decide) (by decide) ?_
          exact cleanStr_glue (by decide) (cleanStr_formatEndTime dt) (by decide)
        · apply noUrgency_of_cleanStr
          try simp only [List.append_assoc, List.cons_append]
          refine cleanStr_glue (by decide) (by decide) ?_
          refine cleanStr_glue (by decide) (by decide) ?_
          exact cleanStr_glue (by decide) (cleanStr_formatEndTime dt) (by decide)
        · apply noUrgency_of_cleanStr
          try simp only [List.append_assoc, List.cons_append]
          refine cleanStr_glue (by decide) (by decide) ?_
          refine cleanStr_glue (by decide) (by decide) ?_
          exact cleanStr_glue (by decide) (cleanStr_formatEndTime dt) (by decide)
    | growthOpportunity =>
      cases hgoal : findGoal goals task.goalId with
      | none =>
        simp only [generateExplanation, hgoal, hred]
        apply noUrgency_of_cleanStr
        try simp only [List.append_assoc, List.cons_append]
        refine cleanStr_glue (by decide) (by decide) ?_
        refine cleanStr_glue (by decide) (by decide) ?_
        exact cleanStr_glue (by decide) (cleanStr_formatEndTime dt) (by decide)
      | some g =>
        have hg : g ∈ goals := mem_goals_of_findGoal hgoal
        simp only [generateExplanation, hgoal, hred]
        apply noUrgency_of_cleanStr
        try simp only [List.append_assoc, List.cons_append]
        refine cleanStr_glue (by decide) (by decide) ?_
        refine cleanStr_glue (by decide) (by decide) ?_
        refine cleanStr_glue (by decide) (cleanStr_formatEndTime dt) ?_
        refine cleanStr_glue (by decide) (by decide) ?_
        exact cleanStr_glue (a := []) (by decide) (by decide)
          (cleanStr_glue (by decide) (htitle g hg) (by decide))

/-- C9 witness (for the amended theorem): a concrete growth explanation with a
clean goal list satisfies all three conclusions. -/
theorem C9_witness :
    strContains (generateExplanation wTaskCore .growthOpportunity [] none 10
      ⟨9, 0, true⟩ (some .user)) (lit "overdue") = false ∧
    strContains (generateExplanation wTaskCore .growthOpportunity [] none 10
      ⟨9, 0, true⟩ (some .user)) (lit "urgent") = false ∧
    strContains (generateExplanation wTaskCore .growthOpportunity [] none 10
      ⟨9, 0, true⟩ (some .user)) (lit "late")
      = strContains (generateExplanation wTaskCore .growthOpportunity [] none 10
          ⟨9, 0, true⟩ (some .user)) (lit "later") :=
  C9_no_urgency_words wTaskCore .growthOpportunity [] none 10 ⟨9, 0, true⟩
    (some .user) (by simp)
